import Mathlib

/-!
Verification of the nflbot probability-and-edge engine.

The Python sources under `app/` are shallowly embedded over `ℚ`:

* `app/core/ev.py`      → `american_to_implied_prob`, `payout_multiple`,
                          `break_even_prob`, `expected_value_per_dollar`,
                          `kelly_fraction`
* `app/adapters/reference_probs.py` → `devig`, `RefEntry`
* `app/core/spreads.py` → `p_fav_half`, `map_hr_to_probs`
* `app/main.py` (`run_once`) → `evalSide`, `evalsForGame`, `alertForGame`,
                          `testCandidates`, `dispatch`, `runCycle`

Python `float` arithmetic is idealised as exact rational arithmetic;
The Python `round` builtin (round half to even) is embedded as `pyRound`.
Python `dict`s keyed by floats are embedded as association lists
`List (ℚ × ℚ)` looked up by exact key equality.
-/

namespace Nflbot

/-! ### app/core/ev.py -/

/-- Embeds `american_to_implied_prob(odds)`: `100/(odds+100)` if `odds>0`,
else `|odds|/(|odds|+100)`. -/
def american_to_implied_prob (odds : ℤ) : ℚ :=
  if 0 < odds then 100 / ((odds : ℚ) + 100)
  else ((|odds| : ℤ) : ℚ) / (((|odds| : ℤ) : ℚ) + 100)

/-- Embeds `payout_multiple(odds)`: net payout multiple per $1 stake,
`odds/100` if positive else `100/|odds|`. -/
def payout_multiple (odds : ℤ) : ℚ :=
  if 0 < odds then (odds : ℚ) / 100 else 100 / ((|odds| : ℤ) : ℚ)

/-- Python `max(0.0, min(1.0, x))`, the probability clamp used in ev.py. -/
def clamp01 (x : ℚ) : ℚ := max 0 (min 1 x)

/-- Embeds `break_even_prob(odds, p_push)` from `app/core/ev.py`. -/
def break_even_prob (odds : ℤ) (p_push : ℚ) : ℚ :=
  let b := payout_multiple odds
  (1 - clamp01 p_push) / (b + 1)

/-- Embeds `expected_value_per_dollar(p_win, odds, p_push)` from `app/core/ev.py`. -/
def expected_value_per_dollar (p_win : ℚ) (odds : ℤ) (p_push : ℚ) : ℚ :=
  let b := payout_multiple odds
  let pw := clamp01 p_win
  let pp := clamp01 p_push
  pw * b - (1 - pw - pp)

/-- Embeds `kelly_fraction(p_win, odds, p_push)` from `app/core/ev.py`. -/
def kelly_fraction (p_win : ℚ) (odds : ℤ) (p_push : ℚ) : ℚ :=
  let b := payout_multiple odds
  let pw := clamp01 p_win
  let pp := clamp01 p_push
  let q := 1 - pw - pp
  (b * pw - q) / b

/-! ### `_devig` from app/adapters/reference_probs.py -/

/-- Embeds `_devig(p1, p2)`: `(p1/s, p2/s)` if `s = p1+p2 > 0`, else `(0.5, 0.5)`. -/
def devig (p1 p2 : ℚ) : ℚ × ℚ :=
  let s := p1 + p2
  if 0 < s then (p1 / s, p2 / s) else (1/2, 1/2)

/-! ### Python rounding -/

/-- The Python builtin `round` (round half to even) on an exact rational. -/
def pyRound (x : ℚ) : ℤ :=
  let f := ⌊x⌋
  let r := x - f
  if r < 1/2 then f
  else if 1/2 < r then f + 1
  else if 2 ∣ f then f else f + 1

/-- Python `round(x, 2)` on an exact rational (round half to even at cents). -/
def round2 (x : ℚ) : ℚ := (pyRound (100 * x) : ℚ) / 100

/-! ### Ladders: Python `Dict[float, float]` as association lists -/

/-- A favorite probability ladder, `Dict[float, float]` in the source. -/
abbrev Ladder := List (ℚ × ℚ)

/-- Python `ladder[k]` / `k in ladder` support: exact-key lookup. -/
def lookupQ (k : ℚ) : Ladder → Option ℚ
  | [] => none
  | (a, b) :: rest => if k = a then some b else lookupQ k rest

/-- Embeds `ladder.keys()`. -/
def keysQ (l : Ladder) : List ℚ := l.map Prod.fst

/-- Embeds `ladder[k]` where `k` is known to be a key (default 0 is never hit there). -/
def getD (l : Ladder) (k : ℚ) : ℚ := (lookupQ k l).getD 0

/-- Maximum of a list of rationals, `none` on empty. -/
def maxQ : List ℚ → Option ℚ
  | [] => none
  | x :: xs =>
    match maxQ xs with
    | none => some x
    | some m => some (max x m)

/-- Minimum of a list of rationals, `none` on empty. -/
def minQ : List ℚ → Option ℚ
  | [] => none
  | x :: xs =>
    match minQ xs with
    | none => some x
    | some m => some (min x m)

/-- The `lo` neighbor of `p_fav_half`: the largest ladder key `≤ target`
(the last such key seen when scanning the sorted keys). -/
def maxKeyLE (target : ℚ) (l : Ladder) : Option ℚ :=
  maxQ ((keysQ l).filter (fun x => decide (x ≤ target)))

/-- The `hi` neighbor of `p_fav_half`: the smallest ladder key `≥ target`
(the first such key seen when scanning the sorted keys). -/
def minKeyGE (target : ℚ) (l : Ladder) : Option ℚ :=
  minQ ((keysQ l).filter (fun x => decide (target ≤ x)))

/-- The max-gap rejection test of `p_fav_half`:
`abs(target - lo) > max_gap or abs(hi - target) > max_gap`. -/
def gapExceeded (target lo hi : ℚ) : Option ℚ → Bool
  | none => false
  | some g => decide (g < |target - lo|) || decide (g < |hi - target|)

/-! ### app/core/spreads.py -/

/-- Embeds `p_fav_half(target, ladder, max_gap)` from `app/core/spreads.py`:
fair probability that the favorite covers the target half-spread, with an
`interpolated` flag. -/
def p_fav_half (target : ℚ) (ladder : Ladder) (max_gap : Option ℚ) :
    Option (ℚ × Bool) :=
  match lookupQ target ladder with
  | some p => some (p, false)
  | none =>
    if ladder = [] then none
    else
      match maxKeyLE target ladder, minKeyGE target ladder with
      | some lo, some hi =>
        if lo = hi then some (getD ladder lo, false)
        else if gapExceeded target lo hi max_gap then none
        else
          let p_lo := getD ladder lo
          let p_hi := getD ladder hi
          let t := (target - lo) / (hi - lo)
          some (p_lo + t * (p_hi - p_lo), true)
      | some _, none => none
      | none, _ => none

/-- The metadata dict `{"whole": ..., "interpolated": ...}` of
`map_hr_to_probs`. -/
structure Meta where
  whole : Bool
  interpolated : Bool
deriving DecidableEq, Repr

/-- Embeds `map_hr_to_probs(side, s_hr, ladder, max_gap)` from `app/core/spreads.py`:
maps a Hard Rock contract to `(p_win, p_push, p_lose, meta)` using a favorite
ladder.  The `side` string is not used by the math, matching the source. -/
def map_hr_to_probs (side : String) (s_hr : ℚ) (ladder : Ladder)
    (max_gap : Option ℚ) : Option (ℚ × ℚ × ℚ × Meta) :=
  let _ := side
  if |s_hr - (pyRound s_hr : ℚ)| > 1/1000000 then
    -- non-integer line: treat as half-point, push probability 0
    if s_hr < 0 then
      match p_fav_half s_hr ladder max_gap with
      | none => none
      | some (p_win, interp) =>
        some (p_win, 0, 1 - p_win, ⟨false, interp⟩)
    else
      match p_fav_half (-|s_hr|) ladder max_gap with
      | none => none
      | some (p_fav, interp) =>
        let p_win := 1 - p_fav
        some (p_win, 0, 1 - p_win, ⟨false, interp⟩)
  else
    -- whole number: use adjacent halves around the whole
    let n : ℕ := (pyRound s_hr).natAbs
    let s_lo := -((n : ℚ) - 1/2)
    let s_hi := -((n : ℚ) + 1/2)
    match p_fav_half s_lo ladder max_gap, p_fav_half s_hi ladder max_gap with
    | some (p_lo, interp_lo), some (p_hi, interp_hi) =>
      let p_push_fav := max 0 (p_lo - p_hi)
      if s_hr < 0 then
        some (p_hi, p_push_fav, 1 - p_hi - p_push_fav, ⟨true, interp_lo || interp_hi⟩)
      else
        let p_win := 1 - p_lo
        some (p_win, p_push_fav, 1 - p_win - p_push_fav, ⟨true, interp_lo || interp_hi⟩)
    | some _, none => none
    | none, _ => none

/-- The lookup-or-interpolate helper exactly as the specification words it
(for the refinement claim about `p_fav_half`): exact match returns the ladder
value, not interpolated; otherwise take the nearest keys `lo ≤ target ≤ hi`,
return unavailable if a neighbor is absent or a set gap bound is exceeded,
else linearly interpolate with `interpolated = true`. -/
def p_fav_half_spec (target : ℚ) (ladder : Ladder) (max_gap : Option ℚ) :
    Option (ℚ × Bool) :=
  match lookupQ target ladder with
  | some p => some (p, false)
  | none =>
    match maxKeyLE target ladder, minKeyGE target ladder with
    | some lo, some hi =>
      if gapExceeded target lo hi max_gap then none
      else
        some (getD ladder lo +
          (target - lo) / (hi - lo) * (getD ladder hi - getD ladder lo), true)
    | some _, none => none
    | none, _ => none

/-! ### app/main.py — the signal engine of `run_once` -/

/-- The environment-derived engine configuration of `app/main.py`
(`BANKROLL`, `MIN_EDGE`, `KELLY_FRACTION`, `MAX_UNIT`, `MAX_INTERP_GAP`). -/
structure Config where
  bankroll : ℚ
  min_edge : ℚ
  kelly_frac : ℚ
  max_unit : ℚ
  max_interp_gap : ℚ
deriving DecidableEq, Repr

/-- One game record as produced by `fetch_hr_nfl_moneylines`
(`app/adapters/hardrock_odds.py`): per-side spread odds/lines and
moneyline prices, any of which may be absent. -/
structure Game where
  game_id : String
  home : String
  away : String
  start_utc : String
  market : String
  odds_home : Option ℤ
  odds_away : Option ℤ
  line_home : Option ℚ
  line_away : Option ℚ
  ml_home : Option ℤ
  ml_away : Option ℤ
deriving DecidableEq, Repr

/-- The decision-relevant part of one `_from_external` result
(`app/adapters/reference_probs.py`): the favorite ladder and, when the
reference feed quoted a moneyline, the devigged moneyline probability pair
`(home, away)` stored under the `"ml"` key (lines 202–207).  The
display-only `ladder`/`prices` maps are log-formatting data and are not
modelled. -/
structure RefEntry where
  fav_ladder : Ladder
  ml : Option (ℚ × ℚ)
deriving DecidableEq, Repr

/-- Embeds `clamp(x, lo, hi) = max(lo, min(hi, x))` from `app/main.py`. -/
def clamp (x lo hi : ℚ) : ℚ := max lo (min hi x)

/-- Embeds `near_key = min(abs(abs_line-3.0), abs(abs_line-7.0)) <= 0.5`
from `run_once`. -/
def nearKey (line : ℚ) : Bool :=
  decide (min |(|line| - 3)| |(|line| - 7)| ≤ (1/2 : ℚ))

/-- The dynamic EV threshold computed inline in `run_once`
(`app/main.py` lines 217–224). -/
def edgeThreshold (min_edge : ℚ) (meta : Meta) (line : ℚ) : ℚ :=
  let thr := max min_edge (1/100)
  let thr := if meta.whole || meta.interpolated then max thr (15/1000) else thr
  if meta.interpolated && nearKey line then max thr (2/100) else thr

/-- One entry of the `evals` list of `run_once`: the tuple
`(ev, side, odds, p_win, k, stake, line, p_push, thr)`. -/
structure SideEval where
  ev : ℚ
  side : String
  odds : ℤ
  p_win : ℚ
  k : ℚ
  stake : ℚ
  line : ℚ
  p_push : ℚ
  thr : ℚ
deriving DecidableEq, Repr

/-- The per-side body of the `for side in ("home","away")` loop of
`run_once` (lines 203–225), for a side whose odds and line are present and
whose ladder is non-empty. -/
def evalSide (cfg : Config) (side : String) (odds : ℤ) (line : ℚ)
    (fav_ladder : Ladder) : Option SideEval :=
  match map_hr_to_probs side line fav_ladder (some cfg.max_interp_gap) with
  | none => none
  | some (p_win, p_push, _, meta) =>
    let ev := expected_value_per_dollar p_win odds p_push
    let k := kelly_fraction p_win odds p_push
    let stake := round2 (cfg.bankroll * clamp (cfg.kelly_frac * max 0 k) 0 cfg.max_unit)
    let thr := edgeThreshold cfg.min_edge meta line
    some ⟨ev, side, odds, p_win, k, stake, line, p_push, thr⟩

/-- Embeds the pair `odds_side, line_side` read off the game record for one side. -/
def sideQuote (g : Game) (side : String) : Option ℤ × Option ℚ :=
  if side = "home" then (g.odds_home, g.line_home) else (g.odds_away, g.line_away)

/-- The `evals` list built by `run_once` for one game: sides missing odds,
missing line, with an empty favorite ladder, or with an unavailable mapping
are skipped. -/
def evalsForGame (cfg : Config) (g : Game) (fav_ladder : Ladder) :
    List SideEval :=
  ["home", "away"].filterMap fun side =>
    match sideQuote g side with
    | (some odds, some line) =>
      if fav_ladder = [] then none else evalSide cfg side odds line fav_ladder
    | _ => none

/-- Python `max(evals, key=lambda x: x[0])`: first entry of maximal `ev`. -/
def maxByEv : List SideEval → Option SideEval
  | [] => none
  | e :: rest => some (rest.foldl (fun b x => if b.ev < x.ev then x else b) e)

/-- A qualifying alert as assembled in `run_once` (lines 230–237).  The
Python pick string `f"{team} {line:+.1f}"` is abstracted to its contents,
the pair `(pickTeam, pickLine)`. -/
structure Alert where
  game_id : String
  market : String
  pickTeam : String
  pickLine : ℚ
  odds : ℤ
  p_true : ℚ
  p_be : ℚ
  p_push : ℚ
  edge : ℚ
  kelly : ℚ
  stake : ℚ
  event : String
  start : String
deriving DecidableEq, Repr

/-- Builds the alert dict of `run_once` from the selected side. -/
def mkAlertFromEval (g : Game) (b : SideEval) : Alert :=
  { game_id := g.game_id
    market := g.market
    pickTeam := if b.side = "home" then g.home else g.away
    pickLine := b.line
    odds := b.odds
    p_true := b.p_win
    p_be := break_even_prob b.odds b.p_push
    p_push := b.p_push
    edge := b.ev
    kelly := b.k
    stake := b.stake
    event := g.away ++ " @ " ++ g.home
    start := g.start_utc }

/-- The per-game alert decision of `run_once` (lines 226–237): take the
maximum-EV side of the `evals` list and alert iff `ev >= thr` and
`stake >= 1.0`. -/
def alertForGame (cfg : Config) (g : Game) (fav_ladder : Ladder) :
    Option Alert :=
  match maxByEv (evalsForGame cfg g fav_ladder) with
  | none => none
  | some b =>
    if b.thr ≤ b.ev ∧ 1 ≤ b.stake then some (mkAlertFromEval g b) else none

/-- Reference-feed lookup `ref.get(rid)`. -/
def lookupRef (k : String) : List (String × RefEntry) → Option RefEntry
  | [] => none
  | (a, b) :: rest => if k = a then some b else lookupRef k rest

/-- The organically qualifying alerts of one polling cycle
(`run_once` lines 197–237). -/
def organicAlerts (cfg : Config) (games : List Game)
    (ref : List (String × RefEntry)) : List Alert :=
  games.filterMap fun g =>
    (lookupRef g.game_id ref).bind fun pr => alertForGame cfg g pr.fav_ladder

/-- The per-side body of the `TEST_FORCE_OPPS` candidate loop
(`run_once` lines 249–279): like `evalSide` but with no threshold test and
the stake forced up to at least $1. -/
def candidateForSide (cfg : Config) (g : Game) (side : String) (odds : ℤ)
    (line : ℚ) (fav_ladder : Ladder) : Option Alert :=
  match map_hr_to_probs side line fav_ladder (some cfg.max_interp_gap) with
  | none => none
  | some (p_win, p_push, _, _) =>
    let ev := expected_value_per_dollar p_win odds p_push
    let k := kelly_fraction p_win odds p_push
    let stake := round2 (cfg.bankroll * clamp (cfg.kelly_frac * max 0 k) 0 cfg.max_unit)
    let stake := max 1 stake
    some { game_id := g.game_id
           market := g.market
           pickTeam := if side = "home" then g.home else g.away
           pickLine := line
           odds := odds
           p_true := p_win
           p_be := break_even_prob odds p_push
           p_push := p_push
           edge := ev
           kelly := k
           stake := stake
           event := g.away ++ " @ " ++ g.home
           start := g.start_utc }

/-- The full `TEST_FORCE_OPPS` candidate list (`run_once` lines 242–279). -/
def testCandidates (cfg : Config) (games : List Game)
    (ref : List (String × RefEntry)) : List Alert :=
  games.flatMap fun g =>
    match lookupRef g.game_id ref with
    | none => []
    | some pr =>
      ["home", "away"].filterMap fun side =>
        match sideQuote g side with
        | (some odds, some line) =>
          if pr.fav_ladder = [] then none
          else candidateForSide cfg g side odds line pr.fav_ladder
        | _ => none

/-- Stable insertion for the descending `sort(key=edge, reverse=True)`. -/
def insertByEdge (a : Alert) : List Alert → List Alert
  | [] => [a]
  | b :: rest => if b.edge ≤ a.edge then a :: b :: rest else b :: insertByEdge a rest

/-- Python `alerts.sort(key=lambda a: a["edge"], reverse=True)`:
stable sort by descending edge. -/
def sortByEdgeDesc : List Alert → List Alert
  | [] => []
  | a :: rest => insertByEdge a (sortByEdgeDesc rest)

/-- The test/diagnostic mode flags read from the environment by
`app/main.py` (`TEST_FORCE_OPPS`, `TEST_FORCE_COUNT`, `TEST_NOTIFY`,
`RUN_ONCE`). -/
structure Flags where
  test_force : Bool
  test_force_count : ℕ
  test_notify : Bool
  run_once_flag : Bool
deriving DecidableEq, Repr

/-- What a completed `run_once` cycle sends through `push`:
nothing, the matched-games error notice, a "no opportunities" notice
(test-titled or not), or a batch of pick blocks. -/
inductive Outcome where
  | silent : Outcome
  | errorNotice : Outcome
  | noOppsNotice (test : Bool) : Outcome
  | picksPush (forced : Bool) (count : ℕ) : Outcome
deriving DecidableEq, Repr

/-- The observable effects of the tail of `run_once`: the notification
outcome, the alerts handed to `save_signal`, and the alerts formatted for
the push. -/
structure CycleResult where
  outcome : Outcome
  saved : List Alert
  pushed : List Alert
deriving DecidableEq, Repr

/-- The tail of `run_once` after evaluation (lines 239–316): optional
test-forcing of candidates, the empty-alerts notification policy, and the
sort/cap/persist/push of qualifying alerts (`save_signal` is skipped for
forced alerts). -/
def dispatch (flags : Flags) (cfg : Config) (games : List Game)
    (ref : List (String × RefEntry)) : CycleResult :=
  let organic := organicAlerts cfg games ref
  let forced := organic.isEmpty && flags.test_force
  let alerts :=
    if forced then
      (sortByEdgeDesc (testCandidates cfg games ref)).take flags.test_force_count
    else organic
  if alerts.isEmpty then
    { outcome :=
        if flags.test_notify then Outcome.noOppsNotice true
        else if flags.run_once_flag then Outcome.noOppsNotice false
        else Outcome.silent
      saved := []
      pushed := [] }
  else
    let top := (sortByEdgeDesc alerts).take 5
    { outcome := Outcome.picksPush forced top.length
      saved := if forced then [] else top
      pushed := top }

/-- Embeds `run_once` from the reference-matching filter on (lines 82 and
193–316): games without a reference entry are dropped; if none remain the
cycle aborts with an error notice, otherwise evaluation and dispatch run. -/
def runCycle (flags : Flags) (cfg : Config) (games : List Game)
    (ref : List (String × RefEntry)) : CycleResult :=
  let matched := games.filter fun g => (lookupRef g.game_id ref).isSome
  if matched.isEmpty then { outcome := Outcome.errorNotice, saved := [], pushed := [] }
  else dispatch flags cfg matched ref

/-- Drops the devigged moneyline pairs from a reference map, keeping only
the favorite ladders. -/
def stripMl : List (String × RefEntry) → List (String × RefEntry)
  | [] => []
  | (k, e) :: rest => (k, ⟨e.fav_ladder, none⟩) :: stripMl rest

/-! ### Concrete instances from the specification examples and the test suite -/

/-- The example ladder `{-7.5: 0.52, -6.5: 0.60}` of spec §8. -/
def ladder76 : Ladder := [(-15/2, 13/25), (-13/2, 3/5)]

/-- The max-gap example ladder `{-9.5: 0.48, -3.5: 0.62}` of spec §8. -/
def ladderGap : Ladder := [(-19/2, 12/25), (-7/2, 31/50)]

/-- The configuration used by the end-to-end integration test. -/
def cfgTest : Config := ⟨100, 1/100, 1/2, 1/50, 2⟩

/-- The integration-test configuration with a 10% edge floor, high enough
that the integration-test game produces no organic alert. -/
def cfgStrict : Config := ⟨100, 1/10, 1/2, 1/50, 2⟩

/-- The environment-default configuration of `app/main.py`. -/
def cfgDefault : Config := ⟨500, 1/100, 1/2, 1/50, 1⟩

/-- All test/diagnostic modes off (the environment defaults). -/
def flagsDefault : Flags := ⟨false, 3, false, false⟩

/-- Only `TEST_FORCE_OPPS` enabled. -/
def flagsForce : Flags := ⟨true, 3, false, false⟩

/-- The integration-test game: spread odds `(-105, -115)` on lines
`(-2.5, +2.5)`. -/
def gameG1 : Game :=
  ⟨"G1", "HOM", "AWY", "2099-09-07T17:00:00Z", "SPREAD",
   some (-105), some (-115), some (-5/2), some (5/2), none, none⟩

/-- The integration-test reference ladder `{-2.5: 0.53}`. -/
def ladderG1 : Ladder := [(-5/2, 53/100)]

/-- The reference map for `gameG1`. -/
def refG1 : List (String × RefEntry) := [("G1", ⟨ladderG1, none⟩)]

/-- A moneyline-only game (mirrors the `G3` integration test): no spread
odds or lines, moneyline prices present. -/
def gameML : Game :=
  ⟨"G3", "HOM", "AWY", "2099-09-07T17:00:00Z", "ML",
   none, none, none, none, some (-110), some 120⟩

/-- A reference entry for `gameML` with an empty favorite ladder but a
devigged moneyline pair `{home: 0.45, away: 0.55}`. -/
def refML : List (String × RefEntry) := [("G3", ⟨[], some (9/20, 11/20)⟩)]

/-- The home-side evaluation of `gameG1` under `cfgTest`, precomputed. -/
def sideEvalG1 : SideEval :=
  ⟨73/2100, "home", -105, 53/100, 73/2000, 91/50, -5/2, 0, 1/100⟩

/-- The away-side evaluation of `gameG1` under `cfgTest`, precomputed. -/
def sideEvalAway : SideEval :=
  ⟨-279/2300, "away", -115, 47/100, -279/2000, 0, 5/2, 0, 1/100⟩

/-- The home-side evaluation of `gameG1` under `cfgStrict`. -/
def sideEvalG1s : SideEval :=
  ⟨73/2100, "home", -105, 53/100, 73/2000, 91/50, -5/2, 0, 1/10⟩

/-- The away-side evaluation of `gameG1` under `cfgStrict`. -/
def sideEvalAways : SideEval :=
  ⟨-279/2300, "away", -115, 47/100, -279/2000, 0, 5/2, 0, 1/10⟩

/-! ## Supporting lemmas -/

/-- Payout multiples of nonzero American odds are strictly positive. -/
theorem payout_multiple_pos (odds : ℤ) (h : odds ≠ 0) : 0 < payout_multiple odds := by
  unfold payout_multiple
  rcases lt_trichotomy odds 0 with hneg | hz | hpos
  · rw [if_neg (by omega)]
    have h0 : (0 : ℤ) < |odds| := abs_pos.mpr h
    have h0q : (0 : ℚ) < ((|odds| : ℤ) : ℚ) := by exact_mod_cast h0
    positivity
  · exact absurd hz h
  · rw [if_pos hpos]
    have h0q : (0 : ℚ) < (odds : ℚ) := by exact_mod_cast hpos
    positivity

/-- A successful exact lookup returns a pair of the list. -/
theorem lookupQ_mem {k v : ℚ} {l : Ladder} (h : lookupQ k l = some v) :
    (k, v) ∈ l := by
  induction l with
  | nil => simp [lookupQ] at h
  | cons p rest ih =>
    obtain ⟨a, b⟩ := p
    rw [lookupQ] at h
    split at h
    · rename_i hk
      cases h
      subst hk
      exact List.mem_cons_self _ _
    · exact List.mem_cons_of_mem _ (ih h)

/-- Exact lookup succeeds on any key of the list. -/
theorem lookupQ_isSome_of_mem_keys {k : ℚ} {l : Ladder} (h : k ∈ keysQ l) :
    (lookupQ k l).isSome := by
  induction l with
  | nil => simp [keysQ] at h
  | cons p rest ih =>
    obtain ⟨a, b⟩ := p
    rw [lookupQ]
    split
    · rfl
    · rename_i hk
      rcases List.mem_cons.mp h with h1 | h1
      · exact absurd h1 hk
      · exact ih h1

/-- The pair looked up at a key of the list is a member of the list. -/
theorem getD_mem {k : ℚ} {l : Ladder} (h : k ∈ keysQ l) : (k, getD l k) ∈ l := by
  have hs := lookupQ_isSome_of_mem_keys h
  obtain ⟨v, hv⟩ := Option.isSome_iff_exists.mp hs
  have : getD l k = v := by rw [getD, hv]; rfl
  rw [this]
  exact lookupQ_mem hv

/-- A computed maximum is a member of the list. -/
theorem maxQ_mem {l : List ℚ} {m : ℚ} (h : maxQ l = some m) : m ∈ l := by
  induction l generalizing m with
  | nil => simp [maxQ] at h
  | cons x xs ih =>
    rw [maxQ] at h
    cases hx : maxQ xs with
    | none =>
      rw [hx] at h
      cases h
      exact List.mem_cons_self _ _
    | some m2 =>
      rw [hx] at h
      cases h
      rcases max_choice x m2 with h1 | h1 <;> rw [h1]
      · exact List.mem_cons_self _ _
      · exact List.mem_cons_of_mem _ (ih hx)

/-- A computed maximum bounds every member of the list. -/
theorem le_maxQ {l : List ℚ} {m : ℚ} (h : maxQ l = some m) :
    ∀ x ∈ l, x ≤ m := by
  induction l generalizing m with
  | nil => simp
  | cons y ys ih =>
    rw [maxQ] at h
    cases hy : maxQ ys with
    | none =>
      rw [hy] at h
      cases h
      intro x hx
      rcases List.mem_cons.mp hx with h1 | h1
      · exact le_of_eq h1
      · cases ys with
        | nil => simp at h1
        | cons z zs => rw [maxQ] at hy; cases hz : maxQ zs <;> rw [hz] at hy <;> cases hy
    | some m2 =>
      rw [hy] at h
      cases h
      intro x hx
      rcases List.mem_cons.mp hx with h1 | h1
      · rw [h1]; exact le_max_left _ _
      · exact le_trans (ih hy x h1) (le_max_right _ _)

/-- A computed minimum is a member of the list. -/
theorem minQ_mem {l : List ℚ} {m : ℚ} (h : minQ l = some m) : m ∈ l := by
  induction l generalizing m with
  | nil => simp [minQ] at h
  | cons x xs ih =>
    rw [minQ] at h
    cases hx : minQ xs with
    | none =>
      rw [hx] at h
      cases h
      exact List.mem_cons_self _ _
    | some m2 =>
      rw [hx] at h
      cases h
      rcases min_choice x m2 with h1 | h1 <;> rw [h1]
      · exact List.mem_cons_self _ _
      · exact List.mem_cons_of_mem _ (ih hx)

/-- A computed minimum bounds every member of the list from below. -/
theorem minQ_le {l : List ℚ} {m : ℚ} (h : minQ l = some m) :
    ∀ x ∈ l, m ≤ x := by
  induction l generalizing m with
  | nil => simp
  | cons y ys ih =>
    rw [minQ] at h
    cases hy : minQ ys with
    | none =>
      rw [hy] at h
      cases h
      intro x hx
      rcases List.mem_cons.mp hx with h1 | h1
      · exact le_of_eq h1.symm
      · cases ys with
        | nil => simp at h1
        | cons z zs => rw [minQ] at hy; cases hz : minQ zs <;> rw [hz] at hy <;> cases hy
    | some m2 =>
      rw [hy] at h
      cases h
      intro x hx
      rcases List.mem_cons.mp hx with h1 | h1
      · rw [h1]; exact min_le_left _ _
      · exact le_trans (min_le_right _ _) (ih hy x h1)

/-- The `lo` neighbor is a ladder key. -/
theorem maxKeyLE_mem_keys {t : ℚ} {l : Ladder} {lo : ℚ}
    (h : maxKeyLE t l = some lo) : lo ∈ keysQ l :=
  (List.mem_filter.mp (maxQ_mem h)).1

/-- The `lo` neighbor lies at or below the target. -/
theorem maxKeyLE_le {t : ℚ} {l : Ladder} {lo : ℚ}
    (h : maxKeyLE t l = some lo) : lo ≤ t :=
  of_decide_eq_true (List.mem_filter.mp (maxQ_mem h)).2

/-- The `hi` neighbor is a ladder key. -/
theorem minKeyGE_mem_keys {t : ℚ} {l : Ladder} {hi : ℚ}
    (h : minKeyGE t l = some hi) : hi ∈ keysQ l :=
  (List.mem_filter.mp (minQ_mem h)).1

/-- The `hi` neighbor lies at or above the target. -/
theorem minKeyGE_ge {t : ℚ} {l : Ladder} {hi : ℚ}
    (h : minKeyGE t l = some hi) : t ≤ hi :=
  of_decide_eq_true (List.mem_filter.mp (minQ_mem h)).2

/-- Linear interpolation with a coefficient in `[0,1]` between two values
in `[0,1]` stays in `[0,1]`. -/
theorem interp_bounds {plo phi t : ℚ} (h1 : 0 ≤ plo) (h2 : plo ≤ 1)
    (h3 : 0 ≤ phi) (h4 : phi ≤ 1) (h5 : 0 ≤ t) (h6 : t ≤ 1) :
    0 ≤ plo + t * (phi - plo) ∧ plo + t * (phi - plo) ≤ 1 := by
  constructor <;> nlinarith

/-- The Python `round` builtin is the identity on integers. -/
theorem pyRound_intCast (k : ℤ) : pyRound (k : ℚ) = k := by
  unfold pyRound
  norm_num [Int.floor_intCast]

/-- Values stored in a ladder whose values lie in `[0,1]` are in `[0,1]`. -/
theorem ladder_value_bounds {l : Ladder} {k : ℚ}
    (hl : ∀ q ∈ l, 0 ≤ q.2 ∧ q.2 ≤ 1) (hk : k ∈ keysQ l) :
    0 ≤ getD l k ∧ getD l k ≤ 1 :=
  hl (k, getD l k) (getD_mem hk)

/-- Any probability produced by `p_fav_half` from a ladder whose values lie
in `[0,1]` lies in `[0,1]`. -/
theorem p_fav_half_bounds {target : ℚ} {ladder : Ladder} {g : Option ℚ}
    {p : ℚ} {i : Bool} (hl : ∀ q ∈ ladder, 0 ≤ q.2 ∧ q.2 ≤ 1)
    (h : p_fav_half target ladder g = some (p, i)) : 0 ≤ p ∧ p ≤ 1 := by
  by_cases hemp : ladder = []
  · subst hemp
    simp [p_fav_half, lookupQ] at h
  · unfold p_fav_half at h
    cases hk : lookupQ target ladder with
    | some v =>
      rw [hk] at h
      simp only [Option.some.injEq, Prod.mk.injEq] at h
      obtain ⟨rfl, rfl⟩ := h
      exact hl (target, v) (lookupQ_mem hk)
    | none =>
      rw [hk, if_neg hemp] at h
      cases hlo : maxKeyLE target ladder with
      | none => rw [hlo] at h; cases h
      | some lo =>
        cases hhi : minKeyGE target ladder with
        | none => rw [hlo, hhi] at h; cases h
        | some hi =>
          rw [hlo, hhi] at h
          dsimp only at h
          have hlob := ladder_value_bounds hl (maxKeyLE_mem_keys hlo)
          have hhib := ladder_value_bounds hl (minKeyGE_mem_keys hhi)
          by_cases hne : lo = hi
          · rw [if_pos hne] at h
            simp only [Option.some.injEq, Prod.mk.injEq] at h
            obtain ⟨rfl, rfl⟩ := h
            exact hlob
          · rw [if_neg hne] at h
            by_cases hgap : gapExceeded target lo hi g = true
            · rw [if_pos hgap] at h; cases h
            · rw [if_neg hgap] at h
              simp only [Option.some.injEq, Prod.mk.injEq] at h
              obtain ⟨rfl, rfl⟩ := h
              have hlot : lo ≤ target := maxKeyLE_le hlo
              have hhit : target ≤ hi := minKeyGE_ge hhi
              have hlt : lo < hi := lt_of_le_of_ne (le_trans hlot hhit) hne
              have ht0 : 0 ≤ (target - lo) / (hi - lo) :=
                div_nonneg (by linarith) (by linarith)
              have ht1 : (target - lo) / (hi - lo) ≤ 1 := by
                rw [div_le_one (by linarith)]
                linarith
              exact interp_bounds hlob.1 hlob.2 hhib.1 hhib.2 ht0 ht1

/-- The probability clamp is the identity on `[0,1]`. -/
theorem clamp01_eq_self {x : ℚ} (h1 : 0 ≤ x) (h2 : x ≤ 1) : clamp01 x = x := by
  rw [clamp01, min_eq_right h2, max_eq_right h1]

/-! ## Claims -/

/-- Claim C8: for implied probabilities `p1, p2 > 0`, `devig` returns a pair
summing to exactly 1 whose ratio equals `p1/p2`; for a degenerate pair with
`p1 + p2 ≤ 0` it returns exactly `(0.5, 0.5)` instead of raising. -/
theorem C8_devig_normalizes (p1 p2 : ℚ) :
    (0 < p1 → 0 < p2 →
      (devig p1 p2).1 + (devig p1 p2).2 = 1 ∧
      (devig p1 p2).1 / (devig p1 p2).2 = p1 / p2) ∧
    (p1 + p2 ≤ 0 → devig p1 p2 = (1/2, 1/2)) := by
  constructor
  · intro h1 h2
    have hs : 0 < p1 + p2 := by linarith
    have hs0 : p1 + p2 ≠ 0 := ne_of_gt hs
    have hp2 : p2 ≠ 0 := ne_of_gt h2
    rw [devig]
    rw [if_pos hs]
    constructor
    · field_simp
    · rw [div_div_div_cancel_right₀]
      exact hs0
  · intro h
    rw [devig]
    rw [if_neg (not_lt.mpr h)]

/-- Witness for C8 at `(0.6, 0.5)` for the positive part and `(0, 0)` for
the degenerate part. -/
theorem C8_devig_normalizes_witness :
    ((0:ℚ) < 3/5 ∧ (0:ℚ) < 1/2 ∧
      (devig (3/5) (1/2)).1 + (devig (3/5) (1/2)).2 = 1 ∧
      (devig (3/5) (1/2)).1 / (devig (3/5) (1/2)).2 = (3/5 : ℚ) / (1/2)) ∧
    ((0:ℚ) + 0 ≤ 0 ∧ devig 0 0 = (1/2, 1/2)) := by
  have ha : (0:ℚ) < 3/5 := by norm_num
  have hb : (0:ℚ) < 1/2 := by norm_num
  have hc : (0:ℚ) + 0 ≤ 0 := by norm_num
  have h1 := (C8_devig_normalizes (3/5) (1/2)).1 ha hb
  have h2 := (C8_devig_normalizes 0 0).2 hc
  exact ⟨⟨ha, hb, h1.1, h1.2⟩, hc, h2⟩

/-- Claim C9: for nonzero American odds and a push probability in `[0,1]`,
`break_even_prob` is exactly the zero of both `expected_value_per_dollar`
and `kelly_fraction`; in particular `expected_value_per_dollar(0.6, -150)`
is exactly 0. -/
theorem C9_break_even_prob_is_ev_zero (odds : ℤ) (p_push : ℚ)
    (h0 : odds ≠ 0) (h1 : 0 ≤ p_push) (h2 : p_push ≤ 1) :
    expected_value_per_dollar (break_even_prob odds p_push) odds p_push = 0 ∧
    kelly_fraction (break_even_prob odds p_push) odds p_push = 0 ∧
    expected_value_per_dollar (3/5) (-150) 0 = 0 := by
  have hb := payout_multiple_pos odds h0
  have hb0 : payout_multiple odds ≠ 0 := ne_of_gt hb
  have hb1 : payout_multiple odds + 1 ≠ 0 := by linarith
  have hpp : clamp01 p_push = p_push := clamp01_eq_self h1 h2
  have hbe : break_even_prob odds p_push =
      (1 - p_push) / (payout_multiple odds + 1) := by
    rw [break_even_prob, hpp]
  have hbe0 : 0 ≤ (1 - p_push) / (payout_multiple odds + 1) :=
    div_nonneg (by linarith) (by linarith)
  have hbe1 : (1 - p_push) / (payout_multiple odds + 1) ≤ 1 := by
    rw [div_le_one (by linarith)]
    linarith
  refine ⟨?_, ?_, ?_⟩
  · rw [expected_value_per_dollar, hbe]
    rw [clamp01_eq_self hbe0 hbe1, hpp]
    field_simp
    ring
  · rw [kelly_fraction, hbe]
    rw [clamp01_eq_self hbe0 hbe1, hpp]
    rw [div_eq_zero_iff]
    left
    field_simp
    ring
  · norm_num [expected_value_per_dollar, clamp01, payout_multiple]

/-- Witness for C9 at odds `-150` with zero push probability. -/
theorem C9_break_even_prob_is_ev_zero_witness :
    ((-150 : ℤ) ≠ 0 ∧ (0:ℚ) ≤ 0 ∧ (0:ℚ) ≤ 1) ∧
    expected_value_per_dollar (break_even_prob (-150) 0) (-150) 0 = 0 ∧
    kelly_fraction (break_even_prob (-150) 0) (-150) 0 = 0 := by
  have h0 : (-150 : ℤ) ≠ 0 := by norm_num
  have h1 : (0:ℚ) ≤ 0 := le_refl 0
  have h2 : (0:ℚ) ≤ 1 := by norm_num
  have h := C9_break_even_prob_is_ev_zero (-150) 0 h0 h1 h2
  exact ⟨⟨h0, h1, h2⟩, h.1, h.2.1⟩

/-- Claim C3: whenever `map_hr_to_probs` returns a distribution from a
ladder whose values all lie in `[0,1]`, the triple satisfies
`p_win + p_push + p_lose = 1` exactly (hence within any tolerance) and each
component lies in `[0,1]`. -/
theorem C3_distribution_invariant (side : String) (s : ℚ) (ladder : Ladder)
    (g : Option ℚ) (pw pp pl : ℚ) (m : Meta)
    (hl : ∀ q ∈ ladder, 0 ≤ q.2 ∧ q.2 ≤ 1)
    (h : map_hr_to_probs side s ladder g = some (pw, pp, pl, m)) :
    pw + pp + pl = 1 ∧
    0 ≤ pw ∧ pw ≤ 1 ∧ 0 ≤ pp ∧ pp ≤ 1 ∧ 0 ≤ pl ∧ pl ≤ 1 := by
  unfold map_hr_to_probs at h
  by_cases hw : |s - (pyRound s : ℚ)| > 1/1000000
  · rw [if_pos hw] at h
    by_cases hs : s < 0
    · rw [if_pos hs] at h
      cases hp : p_fav_half s ladder g with
      | none => rw [hp] at h; cases h
      | some pr =>
        obtain ⟨pwin, interp⟩ := pr
        rw [hp] at h
        dsimp only at h
        simp only [Option.some.injEq, Prod.mk.injEq] at h
        obtain ⟨rfl, rfl, rfl, rfl⟩ := h
        have hb := p_fav_half_bounds hl hp
        exact ⟨by ring, hb.1, hb.2, le_refl 0, by norm_num, by linarith, by linarith⟩
    · rw [if_neg hs] at h
      cases hp : p_fav_half (-|s|) ladder g with
      | none => rw [hp] at h; cases h
      | some pr =>
        obtain ⟨pfav, interp⟩ := pr
        rw [hp] at h
        dsimp only at h
        simp only [Option.some.injEq, Prod.mk.injEq] at h
        obtain ⟨rfl, rfl, rfl, rfl⟩ := h
        have hb := p_fav_half_bounds hl hp
        exact ⟨by ring, by linarith [hb.2], by linarith [hb.1], le_refl 0, by norm_num,
          by linarith [hb.1], by linarith [hb.2]⟩
  · rw [if_neg hw] at h
    dsimp only at h
    cases hpl : p_fav_half (-((((pyRound s).natAbs : ℕ) : ℚ) - 1/2)) ladder g with
    | none => rw [hpl] at h; cases h
    | some prl =>
      obtain ⟨plo, ilo⟩ := prl
      cases hph : p_fav_half (-((((pyRound s).natAbs : ℕ) : ℚ) + 1/2)) ladder g with
      | none => rw [hpl, hph] at h; cases h
      | some prh =>
        obtain ⟨phi, ihi⟩ := prh
        rw [hpl, hph] at h
        dsimp only at h
        have hblo := p_fav_half_bounds hl hpl
        have hbhi := p_fav_half_bounds hl hph
        have hm0 : (0:ℚ) ≤ max 0 (plo - phi) := le_max_left _ _
        have hm1 : max 0 (plo - phi) ≤ 1 := max_le (by norm_num) (by linarith [hblo.2, hbhi.1])
        by_cases hs : s < 0
        · rw [if_pos hs] at h
          simp only [Option.some.injEq, Prod.mk.injEq] at h
          obtain ⟨rfl, rfl, rfl, rfl⟩ := h
          have hup : max 0 (plo - phi) ≤ 1 - phi :=
            max_le (by linarith [hbhi.2]) (by linarith [hblo.2])
          exact ⟨by ring, hbhi.1, hbhi.2, hm0, hm1, by linarith, by linarith [hbhi.1]⟩
        · rw [if_neg hs] at h
          simp only [Option.some.injEq, Prod.mk.injEq] at h
          obtain ⟨rfl, rfl, rfl, rfl⟩ := h
          have hup : max 0 (plo - phi) ≤ plo :=
            max_le hblo.1 (by linarith [hbhi.1])
          exact ⟨by ring, by linarith [hblo.2], by linarith [hblo.1], hm0, hm1,
            by linarith, by linarith [hblo.1, hm0]⟩

/-- Witness for C3: the spec §8 whole-number example ladder and line. -/
theorem C3_distribution_invariant_witness :
    (∀ q ∈ ladder76, 0 ≤ q.2 ∧ q.2 ≤ 1) ∧
    map_hr_to_probs "home" (-7) ladder76 (some 1) =
      some (13/25, 2/25, 2/5, ⟨true, false⟩) ∧
    ((13:ℚ)/25 + 2/25 + 2/5 = 1 ∧
      0 ≤ (13:ℚ)/25 ∧ (13:ℚ)/25 ≤ 1 ∧ 0 ≤ (2:ℚ)/25 ∧ (2:ℚ)/25 ≤ 1 ∧
      0 ≤ (2:ℚ)/5 ∧ (2:ℚ)/5 ≤ 1) := by
  have h1 : ∀ q ∈ ladder76, 0 ≤ q.2 ∧ q.2 ≤ 1 := by
    intro q hq
    simp only [ladder76, List.mem_cons, List.not_mem_nil, or_false] at hq
    rcases hq with rfl | rfl <;> norm_num
  have h2 : map_hr_to_probs "home" (-7) ladder76 (some 1) =
      some (13/25, 2/25, 2/5, ⟨true, false⟩) := by
    norm_num [map_hr_to_probs, pyRound, p_fav_half, ladder76, lookupQ, maxKeyLE,
      minKeyGE, keysQ, maxQ, minQ, gapExceeded, getD]
  exact ⟨h1, h2, C3_distribution_invariant "home" (-7) ladder76 (some 1)
    (13/25) (2/25) (2/5) ⟨true, false⟩ h1 h2⟩

/-- Claim C2: for a whole-number spread `s` with `n = |round(s)|`, when both
adjacent favorite half-point lines `-(n-0.5)` and `-(n+0.5)` resolve to
`p_lo` and `p_hi`, the favorite side (`s<0`) gets `p_win = p_hi` and
`p_push = max 0 (p_lo - p_hi)` and the underdog side (`s>0`) gets
`p_win = 1 - p_lo` with the same push mass; with the ladder
`{-7.5: 0.52, -6.5: 0.60}` the favorite at `-7.0` yields `(0.52, 0.08)` and
the underdog at `+7.0` yields `(0.40, 0.08)`, each summing to 1. -/
theorem C2_whole_number_push_mapping :
    (∀ (side : String) (s : ℚ) (k : ℤ) (ladder : Ladder) (g : Option ℚ)
       (p_lo p_hi : ℚ) (i_lo i_hi : Bool),
       s = (k : ℚ) →
       p_fav_half (-((((pyRound s).natAbs : ℕ) : ℚ) - 1/2)) ladder g =
         some (p_lo, i_lo) →
       p_fav_half (-((((pyRound s).natAbs : ℕ) : ℚ) + 1/2)) ladder g =
         some (p_hi, i_hi) →
       (s < 0 → map_hr_to_probs side s ladder g =
          some (p_hi, max 0 (p_lo - p_hi), 1 - p_hi - max 0 (p_lo - p_hi),
            ⟨true, i_lo || i_hi⟩)) ∧
       (0 < s → map_hr_to_probs side s ladder g =
          some (1 - p_lo, max 0 (p_lo - p_hi),
            1 - (1 - p_lo) - max 0 (p_lo - p_hi), ⟨true, i_lo || i_hi⟩))) ∧
    map_hr_to_probs "home" (-7) ladder76 (some 1) =
      some (13/25, 2/25, 2/5, ⟨true, false⟩) ∧
    ((13:ℚ)/25 + 2/25 + 2/5 = 1) ∧
    map_hr_to_probs "away" 7 ladder76 (some 1) =
      some (2/5, 2/25, 13/25, ⟨true, false⟩) ∧
    ((2:ℚ)/5 + 2/25 + 13/25 = 1) := by
  refine ⟨?_, ?_, by norm_num, ?_, by norm_num⟩
  · intro side s k ladder g p_lo p_hi i_lo i_hi hs hlo hhi
    subst hs
    have hw : ¬(|((k:ℚ)) - (pyRound (k:ℚ) : ℚ)| > 1/1000000) := by
      rw [pyRound_intCast]
      norm_num
    constructor
    · intro hneg
      unfold map_hr_to_probs
      rw [if_neg hw]
      dsimp only
      rw [hlo, hhi]
      dsimp only
      rw [if_pos hneg]
    · intro hpos
      unfold map_hr_to_probs
      rw [if_neg hw]
      dsimp only
      rw [hlo, hhi]
      dsimp only
      rw [if_neg (not_lt.mpr (le_of_lt hpos))]
  · norm_num [map_hr_to_probs, pyRound, p_fav_half, ladder76, lookupQ, maxKeyLE,
      minKeyGE, keysQ, maxQ, minQ, gapExceeded, getD]
  · norm_num [map_hr_to_probs, pyRound, p_fav_half, ladder76, lookupQ, maxKeyLE,
      minKeyGE, keysQ, maxQ, minQ, gapExceeded, getD]

/-- Witness for C2: the general whole-number statement instantiated at the
§8 example (favorite at `-7.0` over `{-7.5: 0.52, -6.5: 0.60}`). -/
theorem C2_whole_number_push_mapping_witness :
    ((-7 : ℚ) = ((-7 : ℤ) : ℚ)) ∧
    p_fav_half (-((((pyRound (-7 : ℚ)).natAbs : ℕ) : ℚ) - 1/2)) ladder76 (some 1) =
      some (3/5, false) ∧
    p_fav_half (-((((pyRound (-7 : ℚ)).natAbs : ℕ) : ℚ) + 1/2)) ladder76 (some 1) =
      some (13/25, false) ∧
    ((-7 : ℚ) < 0) ∧
    map_hr_to_probs "home" (-7) ladder76 (some 1) =
      some (13/25, max 0 (3/5 - 13/25), 1 - 13/25 - max 0 (3/5 - 13/25),
        ⟨true, false || false⟩) := by
  have hs : (-7 : ℚ) = ((-7 : ℤ) : ℚ) := by norm_num
  have hn : pyRound (-7 : ℚ) = -7 := by
    have := pyRound_intCast (-7)
    rw [show (((-7 : ℤ) : ℚ)) = (-7 : ℚ) by norm_num] at this
    exact this
  have hlo : p_fav_half (-((((pyRound (-7 : ℚ)).natAbs : ℕ) : ℚ) - 1/2)) ladder76
      (some 1) = some (3/5, false) := by
    rw [hn]
    norm_num [p_fav_half, ladder76, lookupQ, maxKeyLE, minKeyGE, keysQ, maxQ,
      minQ, gapExceeded, getD]
  have hhi : p_fav_half (-((((pyRound (-7 : ℚ)).natAbs : ℕ) : ℚ) + 1/2)) ladder76
      (some 1) = some (13/25, false) := by
    rw [hn]
    norm_num [p_fav_half, ladder76, lookupQ, maxKeyLE, minKeyGE, keysQ, maxQ,
      minQ, gapExceeded, getD]
  have hneg : (-7 : ℚ) < 0 := by norm_num
  exact ⟨hs, hlo, hhi, hneg,
    ((C2_whole_number_push_mapping.1 "home" (-7) (-7) ladder76 (some 1)
      (3/5) (13/25) false false hs hlo hhi).1 hneg)⟩

/-- Claim C5: `p_fav_half` implements the specification
lookup-or-interpolate helper exactly (exact hit, nearest-neighbor linear
interpolation, unavailable on missing neighbor or exceeded gap bound), and
the two worked spec examples evaluate as stated. -/
theorem C5_lookup_or_interpolate_refines :
    (∀ (target : ℚ) (ladder : Ladder) (g : Option ℚ),
       p_fav_half target ladder g = p_fav_half_spec target ladder g) ∧
    p_fav_half (-7) ladder76 none = some (14/25, true) ∧
    p_fav_half (-7) ladderGap (some 1) = none := by
  refine ⟨?_, ?_, ?_⟩
  · intro target ladder g
    unfold p_fav_half p_fav_half_spec
    cases hk : lookupQ target ladder with
    | some v => rfl
    | none =>
      by_cases hemp : ladder = []
      · subst hemp
        simp [maxKeyLE, keysQ, maxQ]
      · rw [if_neg hemp]
        cases hlo : maxKeyLE target ladder with
        | none => rfl
        | some lo =>
          cases hhi : minKeyGE target ladder with
          | none => rfl
          | some hi =>
            have hne : lo ≠ hi := by
              intro he
              have h1 : lo ≤ target := maxKeyLE_le hlo
              have h2 : target ≤ hi := minKeyGE_ge hhi
              have h3 : lo = target := le_antisymm h1 (he ▸ h2)
              have hmem : target ∈ keysQ ladder := h3 ▸ maxKeyLE_mem_keys hlo
              have h4 := lookupQ_isSome_of_mem_keys hmem
              rw [hk] at h4
              simp at h4
            dsimp only
            rw [if_neg hne]
  · norm_num [p_fav_half, ladder76, lookupQ, maxKeyLE, minKeyGE, keysQ, maxQ,
      minQ, gapExceeded, getD]
    simp
  · norm_num [p_fav_half, ladderGap, lookupQ, maxKeyLE, minKeyGE, keysQ, maxQ,
      minQ, gapExceeded, getD, abs_of_nonneg, abs_of_pos]

/-- Counterexample to claim C4: at the default 1% edge floor, a
whole-number, non-interpolated distribution on the key number 3 receives
exactly the same threshold (0.015) as one on the non-key line 5 — the
key-number raise does not fire for merely whole lines, only for
interpolated ones. -/
theorem C4_counterexample_whole_key_number :
    nearKey (-3) = true ∧ nearKey (-5) = false ∧
    edgeThreshold (1/100) ⟨true, false⟩ (-3) = 15/1000 ∧
    edgeThreshold (1/100) ⟨true, false⟩ (-5) = 15/1000 := by
  refine ⟨?_, ?_, ?_, ?_⟩ <;>
    norm_num [nearKey, edgeThreshold, abs_of_nonneg, abs_of_pos]

/-- Claim C4 as amended: the threshold starts at
`max(MIN_EDGE, 0.01)`; it is raised to at least 0.015 (via `max`) when the
distribution is whole or interpolated; and it is raised to at least 0.02
(via `max`) exactly when the distribution is interpolated — not merely
whole — and the line is within 0.5 of a key number 3 or 7. -/
theorem C4_amended_dynamic_threshold (min_edge line : ℚ) (w i : Bool) :
    (w = false → i = false →
       edgeThreshold min_edge ⟨w, i⟩ line = max min_edge (1/100)) ∧
    ((w = true ∨ i = true) → ¬(i = true ∧ nearKey line = true) →
       edgeThreshold min_edge ⟨w, i⟩ line = max (max min_edge (1/100)) (15/1000)) ∧
    (i = true → nearKey line = true →
       edgeThreshold min_edge ⟨w, i⟩ line =
         max (max (max min_edge (1/100)) (15/1000)) (2/100)) := by
  refine ⟨?_, ?_, ?_⟩
  · rintro rfl rfl
    simp [edgeThreshold]
  · rintro hwi hni
    cases i with
    | false =>
      rcases hwi with hw | hi
      · subst hw
        simp [edgeThreshold]
      · exact absurd hi (by simp)
    | true =>
      have hnk : nearKey line = false := by
        cases hn : nearKey line
        · rfl
        · exact absurd ⟨rfl, hn⟩ hni
      cases w <;> simp [edgeThreshold, hnk]
  · rintro rfl hnk
    cases w <;> simp [edgeThreshold, hnk]

/-- Witness for the amended C4 at the default floor with an interpolated
distribution on the key number 3. -/
theorem C4_amended_dynamic_threshold_witness :
    nearKey (-3) = true ∧
    edgeThreshold (1/100) ⟨false, true⟩ (-3) =
      max (max (max (1/100 : ℚ) (1/100)) (15/1000)) (2/100) := by
  have hnk : nearKey (-3) = true := by
    norm_num [nearKey, abs_of_nonneg, abs_of_pos]
  exact ⟨hnk,
    (C4_amended_dynamic_threshold (1/100) (-3) false true).2.2 rfl hnk⟩

/-- The maximum-EV fold of `maxByEv` stays inside the candidate list. -/
theorem foldl_maxEv_mem (rest : List SideEval) (e : SideEval) :
    rest.foldl (fun b x => if b.ev < x.ev then x else b) e ∈ e :: rest := by
  induction rest generalizing e with
  | nil => simp
  | cons x xs ih =>
    rw [List.foldl_cons]
    have h2 := ih (if e.ev < x.ev then x else e)
    rcases List.mem_cons.mp h2 with h3 | h3
    · rw [h3]
      by_cases hc : e.ev < x.ev
      · rw [if_pos hc]
        exact List.mem_cons_of_mem _ (List.mem_cons_self _ _)
      · rw [if_neg hc]
        exact List.mem_cons_self _ _
    · exact List.mem_cons_of_mem _ (List.mem_cons_of_mem _ h3)

/-- The maximum-EV fold of `maxByEv` dominates the seed and the list. -/
theorem foldl_maxEv_ge (rest : List SideEval) (e : SideEval) :
    e.ev ≤ (rest.foldl (fun b x => if b.ev < x.ev then x else b) e).ev ∧
    ∀ x ∈ rest, x.ev ≤ (rest.foldl (fun b x => if b.ev < x.ev then x else b) e).ev := by
  induction rest generalizing e with
  | nil => exact ⟨le_refl _, by simp⟩
  | cons x xs ih =>
    rw [List.foldl_cons]
    obtain ⟨ih1, ih2⟩ := ih (if e.ev < x.ev then x else e)
    have he : e.ev ≤ (if e.ev < x.ev then x else e).ev := by
      by_cases hc : e.ev < x.ev
      · rw [if_pos hc]
        exact le_of_lt hc
      · rw [if_neg hc]
    have hx : x.ev ≤ (if e.ev < x.ev then x else e).ev := by
      by_cases hc : e.ev < x.ev
      · rw [if_pos hc]
      · rw [if_neg hc]
        exact not_lt.mp hc
    refine ⟨le_trans he ih1, ?_⟩
    intro y hy
    rcases List.mem_cons.mp hy with h3 | h3
    · subst h3
      exact le_trans hx ih1
    · exact ih2 y h3

/-- The side selected by `maxByEv` is one of the evaluated sides. -/
theorem maxByEv_mem {l : List SideEval} {b : SideEval}
    (h : maxByEv l = some b) : b ∈ l := by
  cases l with
  | nil => cases h
  | cons e rest =>
    rw [maxByEv] at h
    simp only [Option.some.injEq] at h
    rw [← h]
    exact foldl_maxEv_mem rest e

/-- The side selected by `maxByEv` has maximal EV. -/
theorem maxByEv_ge {l : List SideEval} {b : SideEval}
    (h : maxByEv l = some b) : ∀ e ∈ l, e.ev ≤ b.ev := by
  cases l with
  | nil => cases h
  | cons e rest =>
    rw [maxByEv] at h
    simp only [Option.some.injEq] at h
    rw [← h]
    intro y hy
    rcases List.mem_cons.mp hy with h3 | h3
    · subst h3
      exact (foldl_maxEv_ge rest y).1
    · exact (foldl_maxEv_ge rest e).2 y h3

/-- Claim C6: per game, the engine emits at most one alert (witnessed by
the `Option` return type of `alertForGame`); any emitted alert comes from
the maximum-EV evaluated side and satisfies `ev ≥ thr` and `stake ≥ 1`;
conversely the maximum-EV side produces the alert whenever its EV meets its
threshold and its stake is at least $1. -/
theorem C6_single_max_ev_alert_per_game (cfg : Config) (g : Game) (L : Ladder) :
    (∀ a, alertForGame cfg g L = some a →
       ∃ b, b ∈ evalsForGame cfg g L ∧
            maxByEv (evalsForGame cfg g L) = some b ∧
            (∀ e ∈ evalsForGame cfg g L, e.ev ≤ b.ev) ∧
            b.thr ≤ b.ev ∧ 1 ≤ b.stake ∧ a = mkAlertFromEval g b) ∧
    (∀ b, maxByEv (evalsForGame cfg g L) = some b →
       b.thr ≤ b.ev → 1 ≤ b.stake →
       alertForGame cfg g L = some (mkAlertFromEval g b)) := by
  constructor
  · intro a ha
    unfold alertForGame at ha
    cases hm : maxByEv (evalsForGame cfg g L) with
    | none => rw [hm] at ha; cases ha
    | some b =>
      rw [hm] at ha
      dsimp only at ha
      by_cases hc : b.thr ≤ b.ev ∧ 1 ≤ b.stake
      · rw [if_pos hc] at ha
        simp only [Option.some.injEq] at ha
        exact ⟨b, maxByEv_mem hm, rfl, maxByEv_ge hm, hc.1, hc.2, ha.symm⟩
      · rw [if_neg hc] at ha
        cases ha
  · intro b hm h1 h2
    unfold alertForGame
    rw [hm]
    dsimp only
    rw [if_pos ⟨h1, h2⟩]

/-- Evaluation of the integration-test game: home-side mapping. -/
theorem mapProbs_G1_home : map_hr_to_probs "home" (-5/2) ladderG1 (some 2) =
    some (53/100, 0, 47/100, ⟨false, false⟩) := by
  norm_num [map_hr_to_probs, pyRound, Int.floor_eq_iff, p_fav_half, ladderG1,
    lookupQ, maxKeyLE, minKeyGE, keysQ, maxQ, minQ, gapExceeded, getD,
    abs_of_pos, abs_of_nonneg]

/-- Evaluation of the integration-test game: away-side mapping. -/
theorem mapProbs_G1_away : map_hr_to_probs "away" (5/2) ladderG1 (some 2) =
    some (47/100, 0, 53/100, ⟨false, false⟩) := by
  norm_num [map_hr_to_probs, pyRound, Int.floor_eq_iff, p_fav_half, ladderG1,
    lookupQ, maxKeyLE, minKeyGE, keysQ, maxQ, minQ, gapExceeded, getD,
    abs_of_pos, abs_of_nonneg]

/-- Home-side EV of the integration-test game. -/
theorem ev_G1_home : expected_value_per_dollar (53/100) (-105) 0 = 73/2100 := by
  norm_num [expected_value_per_dollar, clamp01, payout_multiple]

/-- Away-side EV of the integration-test game. -/
theorem ev_G1_away : expected_value_per_dollar (47/100) (-115) 0 = -279/2300 := by
  norm_num [expected_value_per_dollar, clamp01, payout_multiple]

/-- Home-side Kelly fraction of the integration-test game. -/
theorem kelly_G1_home : kelly_fraction (53/100) (-105) 0 = 73/2000 := by
  norm_num [kelly_fraction, clamp01, payout_multiple]

/-- Away-side Kelly fraction of the integration-test game. -/
theorem kelly_G1_away : kelly_fraction (47/100) (-115) 0 = -279/2000 := by
  norm_num [kelly_fraction, clamp01, payout_multiple]

/-- Home-side stake of the integration-test game: $1.82 after rounding
rounding (half to even) of $1.825. -/
theorem stake_G1_home : round2 (100 * clamp (1/2 * max 0 (73/2000)) 0 (1/50)) = 91/50 := by
  norm_num [round2, clamp, pyRound, Int.floor_eq_iff]

/-- Away-side stake of the integration-test game: $0 (negative Kelly). -/
theorem stake_G1_away :
    round2 (100 * clamp (1/2 * max 0 (-279/2000 : ℚ)) 0 (1/50)) = 0 := by
  norm_num [round2, clamp, pyRound, Int.floor_eq_iff]

/-- Thresholds for the half-point lines of the integration-test game. -/
theorem thr_G1 : edgeThreshold (1/100) ⟨false, false⟩ (-5/2) = 1/100 ∧
    edgeThreshold (1/100) ⟨false, false⟩ (5/2) = 1/100 ∧
    edgeThreshold (1/10) ⟨false, false⟩ (-5/2) = 1/10 ∧
    edgeThreshold (1/10) ⟨false, false⟩ (5/2) = 1/10 := by
  refine ⟨?_, ?_, ?_, ?_⟩ <;> norm_num [edgeThreshold, nearKey]

/-- The full `evals` list of the integration-test game under `cfgTest`. -/
theorem evalsForGame_G1 :
    evalsForGame cfgTest gameG1 ladderG1 = [sideEvalG1, sideEvalAway] := by
  have hevalH : evalSide cfgTest "home" (-105) (-5/2) ladderG1 = some sideEvalG1 := by
    unfold evalSide
    simp only [cfgTest]
    rw [mapProbs_G1_home]
    dsimp only
    rw [ev_G1_home, kelly_G1_home, thr_G1.1, stake_G1_home]
    rfl
  have hevalA : evalSide cfgTest "away" (-115) (5/2) ladderG1 = some sideEvalAway := by
    unfold evalSide
    simp only [cfgTest]
    rw [mapProbs_G1_away]
    dsimp only
    rw [ev_G1_away, kelly_G1_away, thr_G1.2.1, stake_G1_away]
    rfl
  have hsqH : sideQuote gameG1 "home" = (some (-105), some (-5/2)) := rfl
  have hsqA : sideQuote gameG1 "away" = (some (-115), some (5/2)) := rfl
  have hne : ¬(ladderG1 = []) := by simp [ladderG1]
  rw [evalsForGame]
  rw [List.filterMap_cons, List.filterMap_cons, List.filterMap_nil]
  rw [hsqH, hsqA]
  dsimp only
  rw [if_neg hne, hevalH, hevalA]
  rfl

/-- The full `evals` list of the integration-test game under `cfgStrict`. -/
theorem evalsForGame_G1_strict :
    evalsForGame cfgStrict gameG1 ladderG1 = [sideEvalG1s, sideEvalAways] := by
  have hevalH : evalSide cfgStrict "home" (-105) (-5/2) ladderG1 = some sideEvalG1s := by
    unfold evalSide
    simp only [cfgStrict]
    rw [mapProbs_G1_home]
    dsimp only
    rw [ev_G1_home, kelly_G1_home, thr_G1.2.2.1, stake_G1_home]
    rfl
  have hevalA : evalSide cfgStrict "away" (-115) (5/2) ladderG1 = some sideEvalAways := by
    unfold evalSide
    simp only [cfgStrict]
    rw [mapProbs_G1_away]
    dsimp only
    rw [ev_G1_away, kelly_G1_away, thr_G1.2.2.2, stake_G1_away]
    rfl
  have hsqH : sideQuote gameG1 "home" = (some (-105), some (-5/2)) := rfl
  have hsqA : sideQuote gameG1 "away" = (some (-115), some (5/2)) := rfl
  have hne : ¬(ladderG1 = []) := by simp [ladderG1]
  rw [evalsForGame]
  rw [List.filterMap_cons, List.filterMap_cons, List.filterMap_nil]
  rw [hsqH, hsqA]
  dsimp only
  rw [if_neg hne, hevalH, hevalA]
  rfl

/-- Witness for C6: on the integration-test game the home side is selected
as maximum-EV, clears its threshold and stake minimum, and the engine emits
exactly its alert. -/
theorem C6_single_max_ev_alert_per_game_witness :
    maxByEv (evalsForGame cfgTest gameG1 ladderG1) = some sideEvalG1 ∧
    sideEvalG1.thr ≤ sideEvalG1.ev ∧ (1:ℚ) ≤ sideEvalG1.stake ∧
    alertForGame cfgTest gameG1 ladderG1 = some (mkAlertFromEval gameG1 sideEvalG1) := by
  have hmax : maxByEv (evalsForGame cfgTest gameG1 ladderG1) = some sideEvalG1 := by
    rw [evalsForGame_G1, maxByEv, List.foldl_cons, List.foldl_nil]
    rw [if_neg (by norm_num [sideEvalG1, sideEvalAway])]
  have hthr : sideEvalG1.thr ≤ sideEvalG1.ev := by norm_num [sideEvalG1]
  have hstake : (1:ℚ) ≤ sideEvalG1.stake := by norm_num [sideEvalG1]
  exact ⟨hmax, hthr, hstake,
    (C6_single_max_ev_alert_per_game cfgTest gameG1 ladderG1).2 sideEvalG1
      hmax hthr hstake⟩

/-- Reference lookup commutes with dropping the moneyline pairs. -/
theorem lookupRef_stripMl (k : String) (ref : List (String × RefEntry)) :
    lookupRef k (stripMl ref) =
      (lookupRef k ref).map fun e => ⟨e.fav_ladder, none⟩ := by
  induction ref with
  | nil => rfl
  | cons p rest ih =>
    obtain ⟨a, e⟩ := p
    rw [stripMl, lookupRef, lookupRef]
    by_cases hk : k = a
    · rw [if_pos hk, if_pos hk]
      rfl
    · rw [if_neg hk, if_neg hk]
      exact ih

/-- Claim C1 records a code bug: the signal engine of `run_once` never
evaluates a game off the devigged moneyline pair.  A side with an empty
favorite ladder is skipped outright, the engine output is unchanged when
every moneyline pair is deleted from the reference feed, and on a concrete
moneyline-only game (empty `fav_ladder`, devigged pair present, as in the
repository integration tests) a default cycle is completely silent. -/
theorem C1_moneyline_games_never_evaluated :
    (∀ (cfg : Config) (g : Game), evalsForGame cfg g [] = []) ∧
    (∀ (cfg : Config) (games : List Game) (ref : List (String × RefEntry)),
       organicAlerts cfg games (stripMl ref) = organicAlerts cfg games ref) ∧
    runCycle flagsDefault cfgDefault [gameML] refML =
      ⟨Outcome.silent, [], []⟩ := by
  refine ⟨?_, ?_, ?_⟩
  · intro cfg g
    unfold evalsForGame
    rw [List.filterMap_cons, List.filterMap_cons, List.filterMap_nil]
    rcases hq1 : sideQuote g "home" with ⟨o1, l1⟩
    rcases hq2 : sideQuote g "away" with ⟨o2, l2⟩
    cases o1 <;> cases l1 <;> cases o2 <;> cases l2 <;> simp
  · intro cfg games ref
    unfold organicAlerts
    apply List.filterMap_congr
    intro g _
    rw [lookupRef_stripMl]
    cases lookupRef g.game_id ref <;> rfl
  · rfl

/-- A cycle with at least one reference-matched game proceeds to dispatch. -/
theorem runCycle_eq_dispatch (flags : Flags) (cfg : Config) (games : List Game)
    (ref : List (String × RefEntry))
    (h : (games.filter fun g => (lookupRef g.game_id ref).isSome) ≠ []) :
    runCycle flags cfg games ref =
      dispatch flags cfg (games.filter fun g => (lookupRef g.game_id ref).isSome) ref := by
  unfold runCycle
  rw [if_neg (by rw [List.isEmpty_iff]; exact h)]

/-- Dispatch with no organic alerts and test-force off: nothing is saved or
pushed, and the outcome is decided by the `TEST_NOTIFY` / `RUN_ONCE` flags. -/
theorem dispatch_no_organic (flags : Flags) (cfg : Config) (games : List Game)
    (ref : List (String × RefEntry))
    (h : organicAlerts cfg games ref = []) (hf : flags.test_force = false) :
    dispatch flags cfg games ref =
      { outcome := if flags.test_notify then Outcome.noOppsNotice true
                   else if flags.run_once_flag then Outcome.noOppsNotice false
                   else Outcome.silent
        saved := []
        pushed := [] } := by
  unfold dispatch
  rw [h, hf]
  rfl

/-- Dispatch on a test-forced cycle (no organic alerts, force flag on)
saves nothing, whether or not forced candidates exist. -/
theorem dispatch_saved_forced (flags : Flags) (cfg : Config) (games : List Game)
    (ref : List (String × RefEntry))
    (h : organicAlerts cfg games ref = []) (hf : flags.test_force = true) :
    (dispatch flags cfg games ref).saved = [] := by
  unfold dispatch
  rw [h, hf]
  simp
  split <;> rfl

/-- Insertion used by the descending edge sort only rearranges members. -/
theorem mem_insertByEdge {a b : Alert} {l : List Alert}
    (h : a ∈ insertByEdge b l) : a = b ∨ a ∈ l := by
  induction l with
  | nil =>
    rw [insertByEdge] at h
    exact Or.inl (List.mem_singleton.mp h)
  | cons c rest ih =>
    rw [insertByEdge] at h
    by_cases hc : c.edge ≤ b.edge
    · rw [if_pos hc] at h
      rcases List.mem_cons.mp h with h1 | h1
      · exact Or.inl h1
      · exact Or.inr h1
    · rw [if_neg hc] at h
      rcases List.mem_cons.mp h with h1 | h1
      · exact Or.inr (h1 ▸ List.mem_cons_self _ _)
      · rcases ih h1 with h2 | h2
        · exact Or.inl h2
        · exact Or.inr (List.mem_cons_of_mem _ h2)

/-- The descending edge sort only rearranges members. -/
theorem mem_sortByEdgeDesc {a : Alert} {l : List Alert}
    (h : a ∈ sortByEdgeDesc l) : a ∈ l := by
  induction l with
  | nil =>
    rw [sortByEdgeDesc] at h
    exact h
  | cons b rest ih =>
    rw [sortByEdgeDesc] at h
    rcases mem_insertByEdge h with h1 | h1
    · exact h1 ▸ List.mem_cons_self _ _
    · exact List.mem_cons_of_mem _ (ih h1)

/-- Everything dispatch saves is an organically qualifying alert. -/
theorem dispatch_saved_subset (flags : Flags) (cfg : Config) (games : List Game)
    (ref : List (String × RefEntry)) :
    ∀ a ∈ (dispatch flags cfg games ref).saved,
      a ∈ organicAlerts cfg games ref := by
  intro a ha
  cases hO : organicAlerts cfg games ref with
  | nil =>
    cases hf : flags.test_force
    · rw [dispatch_no_organic flags cfg games ref hO hf] at ha
      simp at ha
    · rw [dispatch_saved_forced flags cfg games ref hO hf] at ha
      simp at ha
  | cons x xs =>
    unfold dispatch at ha
    rw [hO] at ha
    simp at ha
    exact mem_sortByEdgeDesc (List.take_subset _ _ ha)

/-- Claim C7: a completed cycle (at least one matched game) with zero
qualifying alerts and test-force off saves and pushes nothing beyond the
optional "no opportunities" notice, is silent exactly when both
`TEST_NOTIFY` and `RUN_ONCE` are off, and any notice it emits is the
test-titled one iff `TEST_NOTIFY` requested it. -/
theorem C7_silent_when_no_qualifying_alerts (flags : Flags) (cfg : Config)
    (games : List Game) (ref : List (String × RefEntry))
    (hf : flags.test_force = false)
    (hmatch : (games.filter fun g => (lookupRef g.game_id ref).isSome) ≠ [])
    (horg : organicAlerts cfg
      (games.filter fun g => (lookupRef g.game_id ref).isSome) ref = []) :
    ((runCycle flags cfg games ref).outcome = Outcome.silent ↔
      flags.test_notify = false ∧ flags.run_once_flag = false) ∧
    (∀ t, (runCycle flags cfg games ref).outcome = Outcome.noOppsNotice t ↔
      (t = true ∧ flags.test_notify = true) ∨
      (t = false ∧ flags.test_notify = false ∧ flags.run_once_flag = true)) ∧
    (runCycle flags cfg games ref).saved = [] ∧
    (runCycle flags cfg games ref).pushed = [] := by
  rw [runCycle_eq_dispatch flags cfg games ref hmatch,
    dispatch_no_organic flags cfg _ ref horg hf]
  cases htn : flags.test_notify <;> cases hro : flags.run_once_flag <;> simp

/-- Helper: the integration-test game survives the reference-match filter. -/
theorem matched_G1 :
    ([gameG1].filter fun g => (lookupRef g.game_id refG1).isSome) = [gameG1] := by
  simp [gameG1, refG1, lookupRef]

/-- Under the strict 10% floor the integration-test game clears no
threshold: its best side is home with EV ≈ 3.5%, below 10%. -/
theorem alertForGame_G1_strict : alertForGame cfgStrict gameG1 ladderG1 = none := by
  unfold alertForGame
  rw [evalsForGame_G1_strict, maxByEv, List.foldl_cons, List.foldl_nil]
  rw [if_neg (by norm_num [sideEvalG1s, sideEvalAways])]
  dsimp only
  rw [if_neg (by norm_num [sideEvalG1s])]

/-- Under the strict 10% floor the cycle has no organic alerts. -/
theorem organicAlerts_G1_strict :
    organicAlerts cfgStrict [gameG1] refG1 = [] := by
  unfold organicAlerts
  rw [List.filterMap_cons, List.filterMap_nil]
  have hlr : lookupRef gameG1.game_id refG1 = some ⟨ladderG1, none⟩ := rfl
  rw [hlr]
  dsimp only [Option.bind]
  rw [alertForGame_G1_strict]

/-- Witness for C7: the integration-test game under the strict floor with
all test modes off yields a completely silent cycle. -/
theorem C7_silent_when_no_qualifying_alerts_witness :
    flagsDefault.test_force = false ∧
    ([gameG1].filter fun g => (lookupRef g.game_id refG1).isSome) ≠ [] ∧
    organicAlerts cfgStrict
      ([gameG1].filter fun g => (lookupRef g.game_id refG1).isSome) refG1 = [] ∧
    ((runCycle flagsDefault cfgStrict [gameG1] refG1).outcome = Outcome.silent ↔
      flagsDefault.test_notify = false ∧ flagsDefault.run_once_flag = false) ∧
    (runCycle flagsDefault cfgStrict [gameG1] refG1).saved = [] ∧
    (runCycle flagsDefault cfgStrict [gameG1] refG1).pushed = [] := by
  have hf : flagsDefault.test_force = false := rfl
  have hmatch : ([gameG1].filter fun g => (lookupRef g.game_id refG1).isSome) ≠ [] := by
    rw [matched_G1]
    simp
  have horg : organicAlerts cfgStrict
      ([gameG1].filter fun g => (lookupRef g.game_id refG1).isSome) refG1 = [] := by
    rw [matched_G1]
    exact organicAlerts_G1_strict
  have h := C7_silent_when_no_qualifying_alerts flagsDefault cfgStrict [gameG1]
    refG1 hf hmatch horg
  exact ⟨hf, hmatch, horg, h.1, h.2.2.1, h.2.2.2⟩

/-- Claim C10: a test-forced cycle (no organic alerts, `TEST_FORCE_OPPS`
on) calls `save_signal` on nothing — the signal store is untouched — and in
general everything ever saved is an organically qualifying alert. -/
theorem C10_forced_cycles_never_persist (flags : Flags) (cfg : Config)
    (games : List Game) (ref : List (String × RefEntry)) :
    (organicAlerts cfg
        (games.filter fun g => (lookupRef g.game_id ref).isSome) ref = [] →
      flags.test_force = true →
      (runCycle flags cfg games ref).saved = []) ∧
    (∀ a ∈ (runCycle flags cfg games ref).saved,
      a ∈ organicAlerts cfg
        (games.filter fun g => (lookupRef g.game_id ref).isSome) ref) := by
  constructor
  · intro horg hf
    by_cases hm : (games.filter fun g => (lookupRef g.game_id ref).isSome) = []
    · unfold runCycle
      rw [if_pos (by rw [List.isEmpty_iff]; exact hm)]
    · rw [runCycle_eq_dispatch flags cfg games ref hm]
      exact dispatch_saved_forced flags cfg _ ref horg hf
  · intro a ha
    by_cases hm : (games.filter fun g => (lookupRef g.game_id ref).isSome) = []
    · unfold runCycle at ha
      rw [if_pos (by rw [List.isEmpty_iff]; exact hm)] at ha
      simp at ha
    · rw [runCycle_eq_dispatch flags cfg games ref hm] at ha
      exact dispatch_saved_subset flags cfg _ ref a ha

/-- Witness for C10: the strict-floor cycle with `TEST_FORCE_OPPS` on
produces forced candidates yet saves nothing. -/
theorem C10_forced_cycles_never_persist_witness :
    organicAlerts cfgStrict
      ([gameG1].filter fun g => (lookupRef g.game_id refG1).isSome) refG1 = [] ∧
    flagsForce.test_force = true ∧
    (runCycle flagsForce cfgStrict [gameG1] refG1).saved = [] := by
  have horg : organicAlerts cfgStrict
      ([gameG1].filter fun g => (lookupRef g.game_id refG1).isSome) refG1 = [] := by
    rw [matched_G1]
    exact organicAlerts_G1_strict
  exact ⟨horg, rfl,
    (C10_forced_cycles_never_persist flagsForce cfgStrict [gameG1] refG1).1 horg rfl⟩

end Nflbot
